import Mathlib

/-!
Verification of the NRIC name-comparison app (app.py): a shallow embedding of
its comparison core (normalize_name, the module-level compare block,
add_serial_number, to_xlsx_bytes) and proofs of the specified properties.
-/

namespace NricCompare

/-- A spreadsheet cell: a text value, a numeric value, or a missing value
(pandas NaN, produced by empty cells when a sheet is parsed). -/
inductive Cell where
  | str : String → Cell
  | num : Nat → Cell
  | na  : Cell
deriving DecidableEq, Repr

abbrev Row := List Cell

/-- A parsed sheet: ordered column names and ordered rows, each row listing its
cells in column order. Mirrors the pandas DataFrame shape used by app.py. -/
structure DataFrame where
  cols : List String
  rows : List Row
deriving DecidableEq, Repr

def NAME_COL : String := "Full Name As Per NRIC"

def SERIAL_COL : String := "S/N"

/-- ASCII whitespace, as recognised by str.strip and by the regex class \s. -/
def isSpace (c : Char) : Bool :=
  decide (c = ' ' ∨ c = '\t' ∨ c = '\n' ∨ c = '\r' ∨ c = '\x0b' ∨ c = '\x0c')

/-- Series.astype(str): every cell rendered as text. A missing value (NaN) is
rendered as the string "nan", exactly as pandas does; the subsequent
fillna("") in normalize_name therefore finds no missing values and is a no-op. -/
def cellToStr : Cell → String
  | .str s => s
  | .num n => toString n
  | .na    => "nan"

/-- str.strip on the character list of a string: drop whitespace from both ends. -/
def stripChars (l : List Char) : List Char :=
  ((l.dropWhile isSpace).reverse.dropWhile isSpace).reverse

/-- One pass of re.sub over \s+ replacing each run with a single space; the
flag records whether the previous character was whitespace, in which case the
run already emitted its single replacement space. -/
def collapseAux : Bool → List Char → List Char
  | _, [] => []
  | prev, c :: rest =>
    if isSpace c then
      if prev then collapseAux true rest
      else ' ' :: collapseAux true rest
    else c :: collapseAux false rest

def collapseChars (l : List Char) : List Char := collapseAux false l

/-- str.upper, ASCII letters only (the normalization is ASCII-oriented). -/
def upperChars (l : List Char) : List Char := l.map Char.toUpper

/-- The string transformation inside normalize_name: strip, collapse each
whitespace run to one space, uppercase. -/
def normStr (s : String) : String :=
  String.mk (upperChars (collapseChars (stripChars s.data)))

/-- normalize_name on a single cell: astype(str) (with the no-op fillna("")),
then strip, collapse, upper. -/
def normalize_cell (c : Cell) : String := normStr (cellToStr c)

/-- normalize_name (app.py lines 25-29) applied to a whole column. -/
def normalize_name (s : List Cell) : List String := s.map normalize_cell

/-- Column access df[c]: the values of column c, row by row. Validation
ensures the column exists before this is used; absent cells read as missing. -/
def getCol (d : DataFrame) (c : String) : List Cell :=
  d.rows.map (fun r => r.getD (d.cols.indexOf c) .na)

def namesOf (d : DataFrame) : List Cell := getCol d NAME_COL

/-- a_norm and b_norm: the normalized name column. -/
def normNames (d : DataFrame) : List String := normalize_name (namesOf d)

/-- a_norm[a_norm != ""].tolist(): the nonempty normalized keys, duplicates
kept; the code only ever tests set membership in it. -/
def keyList (d : DataFrame) : List String := (normNames d).filter (fun k => k != "")

/-- Membership in set(a_norm[a_norm != ""].tolist()). -/
def inKeySet (d : DataFrame) (k : String) : Bool := (keyList d).contains k

/-- Membership in b_set - a_set (Python set difference). -/
def addedKey (a b : DataFrame) (k : String) : Bool := inKeySet b k && !(inKeySet a k)

/-- Membership in a_set - b_set. -/
def removedKey (a b : DataFrame) (k : String) : Bool := inKeySet a k && !(inKeySet b k)

/-- df.loc[mask] where the boolean mask is a predicate over a key sequence
aligned row-by-row with the rows: keeps the rows whose key satisfies the
predicate, in their original order. -/
def selectRows (rows : List Row) (keys : List String) (p : String → Bool) : List Row :=
  ((rows.zip keys).filter (fun rk => p rk.2)).map Prod.fst

/-- new_rows_b = df_b.loc[b_norm.isin(b_set - a_set)] (app.py lines 81 and 84). -/
def new_rows_b (a b : DataFrame) : List Row :=
  selectRows b.rows (normNames b) (addedKey a b)

/-- removed_rows_a = df_a.loc[a_norm.isin(a_set - b_set)] (app.py lines 82 and 85). -/
def removed_rows_a (a b : DataFrame) : List Row :=
  selectRows a.rows (normNames a) (removedKey a b)

/-- The row positions (0-based) selected as added. -/
def addedIdx (a b : DataFrame) : List Nat :=
  ((normNames b).enum.filter (fun ik => addedKey a b ik.2)).map Prod.fst

/-- The row positions (0-based) selected as removed. -/
def removedIdx (a b : DataFrame) : List Nat :=
  ((normNames a).enum.filter (fun ik => removedKey a b ik.2)).map Prod.fst

/-- add_serial_number (app.py lines 31-34): reset_index(drop=True) renumbers
the positional index without touching column data, then
df.insert(0, SERIAL_COL, range(1, len+1)). DataFrame.insert raises ValueError
when the column already exists (allow_duplicates defaults to False); that
failure is modelled by none. -/
def add_serial_number (df : DataFrame) : Option DataFrame :=
  if df.cols.contains SERIAL_COL then none
  else some { cols := SERIAL_COL :: df.cols,
              rows := df.rows.enum.map (fun ir => Cell.num (ir.1 + 1) :: ir.2) }

/-- to_xlsx_bytes (app.py lines 36-41): one sheet per table, sheet names
truncated to 31 characters; the workbook is modelled by its list of sheets. -/
def to_xlsx_bytes (tables : List (String × DataFrame)) : List (String × DataFrame) :=
  tables.map (fun nt => (nt.1.take 31, nt.2))

/-- The validation messages collected at app.py lines 64-68. -/
def missingMsgs (a b : DataFrame) : List String :=
  (if !(a.cols.contains NAME_COL) then ["Excel A missing column: " ++ NAME_COL] else [])
  ++ (if !(b.cols.contains NAME_COL) then ["Excel B missing column: " ++ NAME_COL] else [])

inductive RunError where
  | missingColumns : List String → RunError
  | serialInsert : RunError
deriving DecidableEq, Repr

/-- The module-level block of app.py from validation to download: st.error and
st.stop on missing columns (lines 70-72), otherwise comparison, serial
numbering and workbook assembly (lines 75-128). A ValueError raised by
DataFrame.insert surfaces as RunError.serialInsert. -/
def run (a b : DataFrame) : Except RunError (List (String × DataFrame)) :=
  if missingMsgs a b ≠ [] then .error (.missingColumns (missingMsgs a b))
  else
    match add_serial_number ⟨b.cols, new_rows_b a b⟩,
          add_serial_number ⟨a.cols, removed_rows_a a b⟩ with
    | some nb, some ra =>
        .ok (to_xlsx_bytes [("New_in_Excel_B", nb), ("Removed_from_Excel_A", ra)])
    | _, _ => .error .serialInsert

/-- Modelled from the spec: the Key Set, the set of unique nonempty normalized
keys of a dataset. -/
def keyFinset (d : DataFrame) : Finset String := (keyList d).toFinset

/-- Modelled from the spec: added rows are all rows of the new dataset whose
normalized key lies in keys(new) minus keys(old), pure set difference,
duplicates kept. -/
def specAdded (a b : DataFrame) : List Row :=
  selectRows b.rows (normNames b) (fun k => decide (k ∈ keyFinset b \ keyFinset a))

/-- Modelled from the spec: removed rows, symmetrically. -/
def specRemoved (a b : DataFrame) : List Row :=
  selectRows a.rows (normNames a) (fun k => decide (k ∈ keyFinset a \ keyFinset b))

/-- From the spec, for the cardinality property: the rows of the new dataset
whose nonempty normalized key also occurs in the key set of the old dataset. -/
def unchanged_from_new (a b : DataFrame) : List Row :=
  selectRows b.rows (normNames b) (fun k => k != "" && inKeySet a k)

/-- From the spec: the rows of the old dataset whose nonempty normalized key
also occurs in the key set of the new dataset. -/
def unchanged_from_old (a b : DataFrame) : List Row :=
  selectRows a.rows (normNames a) (fun k => k != "" && inKeySet b k)

/-- From the spec: the rows of a dataset whose normalized key is nonempty. -/
def nonEmptyRows (d : DataFrame) : List Row :=
  selectRows d.rows (normNames d) (fun k => k != "")

/-! Character-level facts about Char.toUpper and isSpace. -/

theorem toNat_inj {a b : Char} (h : a.toNat = b.toNat) : a = b := by
  have ha := Char.ofNat_toNat a
  rw [h, Char.ofNat_toNat] at ha
  exact ha.symm

theorem eq_char_iff_toNat {a b : Char} : a = b ↔ a.toNat = b.toNat :=
  ⟨fun h => h ▸ rfl, toNat_inj⟩

theorem toNat_ofNat_valid {n : Nat} (h : n < 55296) : (Char.ofNat n).toNat = n := by
  have hv : n.isValidChar := Or.inl h
  simp only [Char.ofNat]
  rw [dif_pos hv]
  rfl

theorem toNat_toUpper (c : Char) :
    (Char.toUpper c).toNat =
      if c.toNat ≥ 97 ∧ c.toNat ≤ 122 then c.toNat - 32 else c.toNat := by
  have hdef : Char.toUpper c =
      if c.toNat ≥ 97 ∧ c.toNat ≤ 122 then Char.ofNat (c.toNat - 32) else c := rfl
  rw [hdef]
  by_cases h : c.toNat ≥ 97 ∧ c.toNat ≤ 122
  · rw [if_pos h, if_pos h]
    exact toNat_ofNat_valid (by omega)
  · rw [if_neg h, if_neg h]

theorem toUpper_toUpper (c : Char) : Char.toUpper (Char.toUpper c) = Char.toUpper c := by
  apply toNat_inj
  have hu := toNat_toUpper c
  have huu := toNat_toUpper (Char.toUpper c)
  rw [hu] at huu
  rw [huu, hu]
  split_ifs <;> omega

theorem isSpace_iff {c : Char} :
    isSpace c = true ↔
      (c.toNat = 32 ∨ c.toNat = 9 ∨ c.toNat = 10 ∨ c.toNat = 13 ∨
        c.toNat = 11 ∨ c.toNat = 12) := by
  have h1 : (' ' : Char).toNat = 32 := rfl
  have h2 : ('\t' : Char).toNat = 9 := rfl
  have h3 : ('\n' : Char).toNat = 10 := rfl
  have h4 : ('\r' : Char).toNat = 13 := rfl
  have h5 : ('\x0b' : Char).toNat = 11 := rfl
  have h6 : ('\x0c' : Char).toNat = 12 := rfl
  simp only [isSpace, decide_eq_true_eq, eq_char_iff_toNat, h1, h2, h3, h4, h5, h6]

theorem isSpace_toUpper (c : Char) : isSpace (Char.toUpper c) = isSpace c := by
  have ht := toNat_toUpper c
  by_cases h : c.toNat ≥ 97 ∧ c.toNat ≤ 122
  · rw [if_pos h] at ht
    have h1 : isSpace (Char.toUpper c) = false := by
      rw [← Bool.not_eq_true, isSpace_iff]
      omega
    have h2 : isSpace c = false := by
      rw [← Bool.not_eq_true, isSpace_iff]
      omega
    rw [h1, h2]
  · rw [if_neg h] at ht
    rw [toNat_inj ht]

theorem upperChars_upperChars (l : List Char) : upperChars (upperChars l) = upperChars l := by
  simp only [upperChars, List.map_map]
  exact List.map_congr_left (fun c _ => toUpper_toUpper c)

/-! Structure of the output of collapseAux: every whitespace character it
emits is a single plain space, no two adjacent characters are both
whitespace, and first and last characters are preserved when they are not
whitespace. -/

theorem collapseAux_head_true (l : List Char) :
    ∀ c, (collapseAux true l).head? = some c → isSpace c = false := by
  induction l with
  | nil => intro c h; simp [collapseAux] at h
  | cons a rest ih =>
    intro c h
    by_cases ha : isSpace a
    · rw [collapseAux, if_pos ha, if_pos rfl] at h
      exact ih c h
    · rw [collapseAux, if_neg ha] at h
      simp only [List.head?_cons, Option.some.injEq] at h
      rw [← h]
      exact Bool.of_not_eq_true ha

theorem collapseAux_true_eq_false (l : List Char)
    (h : ∀ c, l.head? = some c → isSpace c = false) :
    collapseAux true l = collapseAux false l := by
  cases l with
  | nil => rfl
  | cons a rest =>
    have ha : isSpace a = false := h a rfl
    rw [collapseAux, collapseAux, if_neg (by simp [ha]), if_neg (by simp [ha])]

theorem collapseAux_blank (b : Bool) (l : List Char) :
    ∀ c ∈ collapseAux b l, isSpace c = true → c = ' ' := by
  induction l generalizing b with
  | nil => intro c hc; simp [collapseAux] at hc
  | cons a rest ih =>
    intro c hc hs
    by_cases ha : isSpace a
    · rw [collapseAux, if_pos ha] at hc
      cases b with
      | true => exact ih true c (by simpa using hc) hs
      | false =>
        rw [if_neg (by simp)] at hc
        rcases List.mem_cons.mp hc with h | h
        · exact h
        · exact ih true c h hs
    · rw [collapseAux, if_neg ha] at hc
      rcases List.mem_cons.mp hc with h | h
      · rw [h] at hs
        exact absurd hs (by simpa using ha)
      · exact ih false c h hs

theorem collapseAux_chain (b : Bool) (l : List Char) :
    List.Chain' (fun x y => isSpace x = true → isSpace y = false) (collapseAux b l) := by
  induction l generalizing b with
  | nil => simp [collapseAux]
  | cons a rest ih =>
    by_cases ha : isSpace a
    · rw [collapseAux, if_pos ha]
      cases b with
      | true => simpa using ih true
      | false =>
        rw [if_neg (by simp)]
        refine List.chain'_cons'.mpr ⟨?_, ih true⟩
        intro y hy _
        exact collapseAux_head_true rest y hy
    · rw [collapseAux, if_neg ha]
      refine List.chain'_cons'.mpr ⟨?_, ih false⟩
      intro y _ hsa
      exact absurd hsa (by simpa using ha)

theorem collapseAux_fix (l : List Char)
    (hblank : ∀ c ∈ l, isSpace c = true → c = ' ')
    (hchain : List.Chain' (fun x y => isSpace x = true → isSpace y = false) l) :
    collapseAux false l = l := by
  induction l with
  | nil => rfl
  | cons a rest ih =>
    rcases List.chain'_cons'.mp hchain with ⟨hhd, htl⟩
    by_cases ha : isSpace a
    · have haa : a = ' ' := hblank a (List.mem_cons_self a rest) ha
      rw [collapseAux, if_pos ha, if_neg (by simp)]
      have hrest : ∀ c, rest.head? = some c → isSpace c = false := by
        intro c hc
        exact hhd c hc ha
      rw [collapseAux_true_eq_false rest hrest,
        ih (fun c hc => hblank c (List.mem_cons_of_mem a hc)) htl, haa]
    · rw [collapseAux, if_neg ha,
        ih (fun c hc => hblank c (List.mem_cons_of_mem a hc)) htl]

theorem getLast?_cons_some {t : List Char} {a c : Char} (h : t.getLast? = some c) :
    (a :: t).getLast? = some c := by
  cases t with
  | nil => simp at h
  | cons x t' => rw [List.getLast?_cons_cons]; exact h

theorem collapseAux_getLast (l : List Char) :
    ∀ (b : Bool) (c : Char), l.getLast? = some c → isSpace c = false →
      (collapseAux b l).getLast? = some c := by
  induction l with
  | nil => intro b c h; simp at h
  | cons a rest ih =>
    intro b c hlast hc
    cases rest with
    | nil =>
      simp only [List.getLast?_singleton, Option.some.injEq] at hlast
      rw [← hlast] at hc
      rw [collapseAux, if_neg (by simp [hc])]
      rw [hlast]
      rfl
    | cons x t =>
      rw [List.getLast?_cons_cons] at hlast
      by_cases ha : isSpace a
      · rw [collapseAux, if_pos ha]
        cases b with
        | true => exact ih true c hlast hc
        | false =>
          rw [if_neg (by simp)]
          exact getLast?_cons_some (ih true c hlast hc)
      · rw [collapseAux, if_neg ha]
        exact getLast?_cons_some (ih false c hlast hc)

/-! stripChars leaves no whitespace at either end, and is the identity on
lists with no whitespace at either end. -/

theorem head?_dropWhile_isSpace (l : List Char) :
    ∀ c, (l.dropWhile isSpace).head? = some c → isSpace c = false := by
  intro c h
  have hm := List.head?_dropWhile_not isSpace l
  rw [h] at hm
  exact hm

theorem strip_getLast (l : List Char) :
    ∀ c, (stripChars l).getLast? = some c → isSpace c = false := by
  intro c h
  rw [stripChars, List.getLast?_reverse] at h
  exact head?_dropWhile_isSpace _ c h

theorem strip_head (l : List Char) :
    ∀ c, (stripChars l).head? = some c → isSpace c = false := by
  intro c h
  rw [stripChars, List.head?_reverse] at h
  obtain ⟨pre, hpre⟩ :=
    List.dropWhile_suffix (l := (l.dropWhile isSpace).reverse) isSpace
  have hY : ((l.dropWhile isSpace).reverse).getLast? = some c := by
    rw [← hpre, List.getLast?_append, h]
    rfl
  rw [List.getLast?_reverse] at hY
  exact head?_dropWhile_isSpace l c hY

theorem strip_fix (l : List Char)
    (hh : ∀ c, l.head? = some c → isSpace c = false)
    (hl : ∀ c, l.getLast? = some c → isSpace c = false) :
    stripChars l = l := by
  have h1 : l.dropWhile isSpace = l := by
    cases l with
    | nil => rfl
    | cons a t => rw [List.dropWhile_cons_of_neg (by simp [hh a rfl])]
  have h2 : l.reverse.dropWhile isSpace = l.reverse := by
    cases hr : l.reverse with
    | nil => rfl
    | cons a t =>
      have ha : l.getLast? = some a := by
        rw [← List.head?_reverse, hr]
        rfl
      rw [List.dropWhile_cons_of_neg (by simp [hl a ha])]
  rw [stripChars, h1, h2, List.reverse_reverse]

/-! The normalized string is a fixed point of each of the three stages. -/

theorem normStr_data (s : String) :
    (normStr s).data = upperChars (collapseChars (stripChars s.data)) := rfl

theorem collapse_head (l : List Char)
    (hh : ∀ c, l.head? = some c → isSpace c = false) :
    ∀ c, (collapseChars l).head? = some c → isSpace c = false := by
  cases l with
  | nil => intro c h; simp [collapseChars, collapseAux] at h
  | cons a t =>
    intro c h
    have ha : isSpace a = false := hh a rfl
    rw [collapseChars, collapseAux, if_neg (by simp [ha])] at h
    simp only [List.head?_cons, Option.some.injEq] at h
    rw [← h]
    exact ha

theorem collapse_getLast (l : List Char)
    (hl : ∀ c, l.getLast? = some c → isSpace c = false) :
    ∀ c, (collapseChars l).getLast? = some c → isSpace c = false := by
  intro c h
  cases hx : l.getLast? with
  | none =>
    rw [List.getLast?_eq_none_iff.mp hx] at h
    simp [collapseChars, collapseAux] at h
  | some d =>
    have hd : isSpace d = false := hl d hx
    have hcc := collapseAux_getLast l false d hx hd
    rw [collapseChars] at h
    rw [hcc] at h
    simp only [Option.some.injEq] at h
    rw [← h]
    exact hd

theorem normStr_head (s : String) :
    ∀ c, (normStr s).data.head? = some c → isSpace c = false := by
  intro c h
  rw [normStr_data] at h
  simp only [upperChars, List.head?_map] at h
  cases hx : (collapseChars (stripChars s.data)).head? with
  | none => rw [hx] at h; simp at h
  | some d =>
    rw [hx] at h
    simp only [Option.map_some', Option.some.injEq] at h
    rw [← h, isSpace_toUpper]
    exact collapse_head _ (strip_head s.data) d hx

theorem normStr_last (s : String) :
    ∀ c, (normStr s).data.getLast? = some c → isSpace c = false := by
  intro c h
  rw [normStr_data] at h
  simp only [upperChars, List.getLast?_map] at h
  cases hx : (collapseChars (stripChars s.data)).getLast? with
  | none => rw [hx] at h; simp at h
  | some d =>
    rw [hx] at h
    simp only [Option.map_some', Option.some.injEq] at h
    rw [← h, isSpace_toUpper]
    exact collapse_getLast _ (strip_getLast s.data) d hx

theorem strip_normStr (s : String) : stripChars (normStr s).data = (normStr s).data :=
  strip_fix _ (normStr_head s) (normStr_last s)

theorem upper_normStr (s : String) : upperChars (normStr s).data = (normStr s).data := by
  rw [normStr_data]
  exact upperChars_upperChars _

theorem collapse_normStr (s : String) :
    collapseChars (normStr s).data = (normStr s).data := by
  rw [normStr_data]
  apply collapseAux_fix
  · intro c hc hs
    simp only [upperChars, List.mem_map] at hc
    obtain ⟨d, hd, rfl⟩ := hc
    rw [isSpace_toUpper] at hs
    rw [collapseAux_blank false _ d hd hs]
    decide
  · apply (List.chain'_map Char.toUpper).mpr
    apply List.Chain'.imp ?_ (collapseAux_chain false _)
    intro x y hxy
    rw [isSpace_toUpper, isSpace_toUpper]
    exact hxy

theorem normStr_normStr (s : String) : normStr (normStr s) = normStr s := by
  apply String.ext
  rw [normStr_data (normStr s), strip_normStr, collapse_normStr, upper_normStr]

/-! Diff-engine helper lemmas. -/

theorem inKeySet_iff {d : DataFrame} {k : String} :
    inKeySet d k = true ↔ k ∈ normNames d ∧ k ≠ "" := by
  simp [inKeySet, keyList, List.mem_filter]

theorem inKeySet_empty (d : DataFrame) : inKeySet d "" = false := by
  rw [← Bool.not_eq_true, inKeySet_iff]
  simp

theorem addedKey_empty (a b : DataFrame) : addedKey a b "" = false := by
  simp [addedKey, inKeySet_empty]

theorem removedKey_empty (a b : DataFrame) : removedKey a b "" = false := by
  simp [removedKey, inKeySet_empty]

theorem addedKey_eq_spec (a b : DataFrame) (k : String) :
    addedKey a b k = decide (k ∈ keyFinset b \ keyFinset a) := by
  rw [Bool.eq_iff_iff]
  simp [addedKey, inKeySet, keyFinset, Finset.mem_sdiff]

theorem removedKey_eq_spec (a b : DataFrame) (k : String) :
    removedKey a b k = decide (k ∈ keyFinset a \ keyFinset b) := by
  rw [Bool.eq_iff_iff]
  simp [removedKey, inKeySet, keyFinset, Finset.mem_sdiff]

theorem map_fst_filter_sublist {α β : Type} (l : List α) (ks : List β)
    (q : α × β → Bool) :
    List.Sublist (((l.zip ks).filter q).map Prod.fst) l := by
  induction l generalizing ks with
  | nil => simp
  | cons r rs ih =>
    cases ks with
    | nil => simp
    | cons k kt =>
      rw [List.zip_cons_cons, List.filter_cons]
      cases hq : q (r, k)
      · simp only [Bool.false_eq_true, if_false]
        exact List.Sublist.cons r (ih kt)
      · simp only [if_true]
        rw [List.map_cons]
        exact List.Sublist.cons₂ r (ih kt)

theorem length_filter_split {α : Type} (l : List α) (r s : α → Bool) :
    (l.filter (fun x => r x && !(s x))).length + (l.filter (fun x => r x && s x)).length
      = (l.filter r).length := by
  induction l with
  | nil => rfl
  | cons x t ih =>
    by_cases hr : r x
    · by_cases hs : s x <;> simp [List.filter_cons, hr, hs] <;> omega
    · simp [List.filter_cons, hr, ih]

/-! Claim theorems. -/

/-- C1: for datasets that both contain the name column, the diff computes the
added rows as exactly the rows of the new dataset whose normalized key lies
in keys(new) minus keys(old), and the removed rows as exactly the rows of the
old dataset whose normalized key lies in keys(old) minus keys(new); duplicate
rows sharing such a key are all included, since the row lists are equal. -/
theorem diff_added_removed_eq_spec (a b : DataFrame)
    (ha : a.cols.contains NAME_COL = true) (hb : b.cols.contains NAME_COL = true) :
    new_rows_b a b = specAdded a b ∧ removed_rows_a a b = specRemoved a b := by
  constructor
  · unfold new_rows_b specAdded selectRows
    rw [List.filter_congr (fun rk _ => addedKey_eq_spec a b rk.2)]
  · unfold removed_rows_a specRemoved selectRows
    rw [List.filter_congr (fun rk _ => removedKey_eq_spec a b rk.2)]

/-- Witness for C1 at the end-to-end scenario of the spec. -/
theorem diff_added_removed_eq_spec_witness :
    (DataFrame.mk [NAME_COL] [[Cell.str "Alice Tan"], [Cell.str "Bob Lee"]]).cols.contains
        NAME_COL = true
    ∧ (new_rows_b (DataFrame.mk [NAME_COL] [[Cell.str "Alice Tan"], [Cell.str "Bob Lee"]])
          (DataFrame.mk [NAME_COL] [[Cell.str "ALICE TAN"], [Cell.str "Carol Ng"]])
        = specAdded (DataFrame.mk [NAME_COL] [[Cell.str "Alice Tan"], [Cell.str "Bob Lee"]])
          (DataFrame.mk [NAME_COL] [[Cell.str "ALICE TAN"], [Cell.str "Carol Ng"]])
      ∧ removed_rows_a (DataFrame.mk [NAME_COL] [[Cell.str "Alice Tan"], [Cell.str "Bob Lee"]])
          (DataFrame.mk [NAME_COL] [[Cell.str "ALICE TAN"], [Cell.str "Carol Ng"]])
        = specRemoved (DataFrame.mk [NAME_COL] [[Cell.str "Alice Tan"], [Cell.str "Bob Lee"]])
          (DataFrame.mk [NAME_COL] [[Cell.str "ALICE TAN"], [Cell.str "Carol Ng"]])) :=
  ⟨by decide, diff_added_removed_eq_spec _ _ (by decide) (by decide)⟩

/-- C2: evaluation at the failing input. A missing (NaN) value normalizes
to "NAN", not to the empty string: astype(str) renders NaN as the text
"nan" before fillna("") runs, so the fillna never applies. Empty and
whitespace-only text inputs do normalize to the empty string. -/
theorem normalize_missing_value_eval :
    normalize_name [Cell.na] = ["NAN"]
    ∧ normalize_name [Cell.str ""] = [""]
    ∧ normalize_name [Cell.str " \t "] = [""]
    ∧ ("NAN" : String) ≠ "" := by decide

/-- C3: if either dataset lacks the column named "Full Name As Per NRIC",
the run halts with a missing-column error whose message list names exactly
the dataset(s) lacking the column, and no workbook is produced. -/
theorem missing_column_halts (a b : DataFrame)
    (h : a.cols.contains NAME_COL = false ∨ b.cols.contains NAME_COL = false) :
    run a b = Except.error (RunError.missingColumns (missingMsgs a b))
    ∧ (("Excel A missing column: " ++ NAME_COL) ∈ missingMsgs a b ↔
        a.cols.contains NAME_COL = false)
    ∧ (("Excel B missing column: " ++ NAME_COL) ∈ missingMsgs a b ↔
        b.cols.contains NAME_COL = false) := by
  have hAB : ("Excel A missing column: " ++ NAME_COL) ≠
      ("Excel B missing column: " ++ NAME_COL) := by decide
  cases ha : a.cols.contains NAME_COL <;> cases hb : b.cols.contains NAME_COL
  · have ha2 : NAME_COL ∉ a.cols := by simpa using ha
    have hb2 : NAME_COL ∉ b.cols := by simpa using hb
    refine ⟨?_, ?_, ?_⟩ <;>
      simp [run, missingMsgs, ha, hb, ha2, hb2, hAB, Ne.symm hAB]
  · have ha2 : NAME_COL ∉ a.cols := by simpa using ha
    have hb2 : NAME_COL ∈ b.cols := by simpa using hb
    refine ⟨?_, ?_, ?_⟩ <;>
      simp [run, missingMsgs, ha, hb, ha2, hb2, hAB, Ne.symm hAB]
  · have ha2 : NAME_COL ∈ a.cols := by simpa using ha
    have hb2 : NAME_COL ∉ b.cols := by simpa using hb
    refine ⟨?_, ?_, ?_⟩ <;>
      simp [run, missingMsgs, ha, hb, ha2, hb2, hAB, Ne.symm hAB]
  · rw [ha, hb] at h
    rcases h with h | h <;> simp at h

/-- Witness for C3: the old dataset lacks the name column. -/
theorem missing_column_halts_witness :
    ((DataFrame.mk ["X"] []).cols.contains NAME_COL = false
      ∨ (DataFrame.mk [NAME_COL] []).cols.contains NAME_COL = false)
    ∧ (run (DataFrame.mk ["X"] []) (DataFrame.mk [NAME_COL] [])
        = Except.error (RunError.missingColumns
            (missingMsgs (DataFrame.mk ["X"] []) (DataFrame.mk [NAME_COL] [])))
      ∧ (("Excel A missing column: " ++ NAME_COL) ∈
            missingMsgs (DataFrame.mk ["X"] []) (DataFrame.mk [NAME_COL] []) ↔
          (DataFrame.mk ["X"] []).cols.contains NAME_COL = false)
      ∧ (("Excel B missing column: " ++ NAME_COL) ∈
            missingMsgs (DataFrame.mk ["X"] []) (DataFrame.mk [NAME_COL] []) ↔
          (DataFrame.mk [NAME_COL] []).cols.contains NAME_COL = false)) :=
  ⟨Or.inl (by decide), missing_column_halts _ _ (Or.inl (by decide))⟩

/-- C4: an empty normalized key never enters either key set, and a row whose
name normalizes to the empty string is never selected as added or removed. -/
theorem empty_key_excluded (a b : DataFrame) :
    "" ∉ keyList a ∧ "" ∉ keyList b
    ∧ (∀ i, (normNames b)[i]? = some "" → i ∉ addedIdx a b)
    ∧ (∀ i, (normNames a)[i]? = some "" → i ∉ removedIdx a b) := by
  refine ⟨?_, ?_, ?_, ?_⟩
  · simp [keyList, List.mem_filter]
  · simp [keyList, List.mem_filter]
  · intro i hi hmem
    rw [addedIdx] at hmem
    simp only [List.mem_map] at hmem
    obtain ⟨⟨j, k⟩, hp, hj⟩ := hmem
    rw [List.mem_filter] at hp
    obtain ⟨hpe, hpk⟩ := hp
    have hk := List.mk_mem_enum_iff_getElem?.mp hpe
    simp only at hj
    rw [hj] at hk
    rw [hi] at hk
    simp only [Option.some.injEq] at hk
    rw [← hk] at hpk
    simp [addedKey_empty a b] at hpk
  · intro i hi hmem
    rw [removedIdx] at hmem
    simp only [List.mem_map] at hmem
    obtain ⟨⟨j, k⟩, hp, hj⟩ := hmem
    rw [List.mem_filter] at hp
    obtain ⟨hpe, hpk⟩ := hp
    have hk := List.mk_mem_enum_iff_getElem?.mp hpe
    simp only at hj
    rw [hj] at hk
    rw [hi] at hk
    simp only [Option.some.injEq] at hk
    rw [← hk] at hpk
    simp [removedKey_empty a b] at hpk

/-- Witness for C4: a blank name in the new dataset is not selected. -/
theorem empty_key_excluded_witness :
    (normNames (DataFrame.mk [NAME_COL] [[Cell.str " "]]))[0]? = some ""
    ∧ 0 ∉ addedIdx (DataFrame.mk [NAME_COL] [[Cell.str "Alice"]])
        (DataFrame.mk [NAME_COL] [[Cell.str " "]]) :=
  ⟨by decide,
    (empty_key_excluded (DataFrame.mk [NAME_COL] [[Cell.str "Alice"]])
      (DataFrame.mk [NAME_COL] [[Cell.str " "]])).2.2.1 0 (by decide)⟩

/-- C5: normalization is exactly strip, whitespace-run collapse, uppercase:
it is that composition by definition, its output is a fixed point of each of
the three stages, and the two concrete instances of the spec hold. -/
theorem normalize_trims_collapses_uppercases :
    (∀ s : String, normStr s = String.mk (upperChars (collapseChars (stripChars s.data))))
    ∧ (∀ s : String, stripChars (normStr s).data = (normStr s).data)
    ∧ (∀ s : String, collapseChars (normStr s).data = (normStr s).data)
    ∧ (∀ s : String, upperChars (normStr s).data = (normStr s).data)
    ∧ normStr "  John   Tan " = "JOHN TAN"
    ∧ normStr "john tan" = normStr "JOHN TAN" :=
  ⟨fun _ => rfl, strip_normStr, collapse_normStr, upper_normStr, by decide, by decide⟩

/-- C6: normalization is idempotent on every string. -/
theorem normalize_idempotent : ∀ s : String, normStr (normStr s) = normStr s :=
  normStr_normStr

/-- C7: the added rows are a subsequence of the new dataset's rows in their
original order, and the removed rows a subsequence of the old dataset's rows;
selection is a stable filter with no re-sorting. -/
theorem result_order_preserved (a b : DataFrame) :
    List.Sublist (new_rows_b a b) b.rows ∧ List.Sublist (removed_rows_a a b) a.rows :=
  ⟨map_fst_filter_sublist _ _ _, map_fst_filter_sublist _ _ _⟩

/-- C8 counterexample: on a row subset that already carries a column named
"S/N", the assembler produces no table at all (DataFrame.insert raises
ValueError on a duplicate column), refuting the claim for every subset. -/
theorem add_serial_number_existing_column :
    add_serial_number (DataFrame.mk [SERIAL_COL] [[Cell.num 7]]) = none := by decide

/-- C8 (amended): for every row subset without a pre-existing "S/N" column,
the assembler yields a table with a new leading "S/N" column holding exactly
1, 2, ..., N in the subset's row order, all original columns and values kept
and no rows added, dropped or reordered. -/
theorem add_serial_number_ok (df : DataFrame)
    (h : df.cols.contains SERIAL_COL = false) :
    ∃ out, add_serial_number df = some out
      ∧ out.cols = SERIAL_COL :: df.cols
      ∧ out.rows.length = df.rows.length
      ∧ out.rows.map List.tail = df.rows
      ∧ out.rows.map List.head? =
          (List.range df.rows.length).map (fun i => some (Cell.num (i + 1))) := by
  rw [add_serial_number, if_neg (by simp_all)]
  refine ⟨_, rfl, rfl, ?_, ?_, ?_⟩
  · simp
  · rw [List.map_map]
    have : (List.tail ∘ fun ir : Nat × Row => Cell.num (ir.1 + 1) :: ir.2)
        = Prod.snd := by
      funext ir
      rfl
    rw [this, List.enum_map_snd]
  · rw [List.map_map, ← List.enum_map_fst df.rows, List.map_map]
    rfl

/-- Witness for C8 (amended) on a two-row subset. -/
theorem add_serial_number_ok_witness :
    (DataFrame.mk [NAME_COL] [[Cell.str "Alice"], [Cell.str "Bob"]]).cols.contains
        SERIAL_COL = false
    ∧ ∃ out,
        add_serial_number (DataFrame.mk [NAME_COL] [[Cell.str "Alice"], [Cell.str "Bob"]])
            = some out
        ∧ out.cols = SERIAL_COL ::
            (DataFrame.mk [NAME_COL] [[Cell.str "Alice"], [Cell.str "Bob"]]).cols
        ∧ out.rows.length =
            (DataFrame.mk [NAME_COL] [[Cell.str "Alice"], [Cell.str "Bob"]]).rows.length
        ∧ out.rows.map List.tail =
            (DataFrame.mk [NAME_COL] [[Cell.str "Alice"], [Cell.str "Bob"]]).rows
        ∧ out.rows.map List.head? =
            (List.range (DataFrame.mk [NAME_COL]
                [[Cell.str "Alice"], [Cell.str "Bob"]]).rows.length).map
              (fun i => some (Cell.num (i + 1))) :=
  ⟨by decide, add_serial_number_ok _ (by decide)⟩

/-- C9: the added rows and the rows of the new dataset whose nonempty key
also occurs in the old key set partition the rows of the new dataset with
nonempty keys, and symmetrically for the removed rows. -/
theorem added_unchanged_partition (a b : DataFrame) :
    (new_rows_b a b).length + (unchanged_from_new a b).length = (nonEmptyRows b).length
    ∧ (removed_rows_a a b).length + (unchanged_from_old a b).length
        = (nonEmptyRows a).length := by
  constructor
  · unfold new_rows_b unchanged_from_new nonEmptyRows selectRows
    rw [List.length_map, List.length_map, List.length_map]
    have hpt : ∀ rk ∈ b.rows.zip (normNames b),
        addedKey a b rk.2 = ((rk.2 != "") && !(inKeySet a rk.2)) := by
      intro rk hrk
      have hmem : rk.2 ∈ normNames b := (List.of_mem_zip hrk).2
      have hbk : inKeySet b rk.2 = (rk.2 != "") := by
        rw [Bool.eq_iff_iff]
        simp [inKeySet_iff, hmem]
      rw [addedKey, hbk]
    rw [List.filter_congr hpt]
    exact length_filter_split (b.rows.zip (normNames b))
      (fun rk => rk.2 != "") (fun rk => inKeySet a rk.2)
  · unfold removed_rows_a unchanged_from_old nonEmptyRows selectRows
    rw [List.length_map, List.length_map, List.length_map]
    have hpt : ∀ rk ∈ a.rows.zip (normNames a),
        removedKey a b rk.2 = ((rk.2 != "") && !(inKeySet b rk.2)) := by
      intro rk hrk
      have hmem : rk.2 ∈ normNames a := (List.of_mem_zip hrk).2
      have hak : inKeySet a rk.2 = (rk.2 != "") := by
        rw [Bool.eq_iff_iff]
        simp [inKeySet_iff, hmem]
      rw [removedKey, hak]
    rw [List.filter_congr hpt]
    exact length_filter_split (a.rows.zip (normNames a))
      (fun rk => rk.2 != "") (fun rk => inKeySet b rk.2)

/-- C10: the diff classification reads only the name column: runs whose old
datasets agree on the name-column values and whose new datasets agree on the
name-column values select identical added and removed row positions,
whatever the other columns hold. -/
theorem classification_depends_only_on_names (a₁ b₁ a₂ b₂ : DataFrame)
    (ha : namesOf a₁ = namesOf a₂) (hb : namesOf b₁ = namesOf b₂) :
    addedIdx a₁ b₁ = addedIdx a₂ b₂ ∧ removedIdx a₁ b₁ = removedIdx a₂ b₂ := by
  have hna : normNames a₁ = normNames a₂ := by unfold normNames; rw [ha]
  have hnb : normNames b₁ = normNames b₂ := by unfold normNames; rw [hb]
  have hkla : keyList a₁ = keyList a₂ := by unfold keyList; rw [hna]
  have hklb : keyList b₁ = keyList b₂ := by unfold keyList; rw [hnb]
  have hadd : addedKey a₁ b₁ = addedKey a₂ b₂ := by
    funext k
    unfold addedKey inKeySet
    rw [hkla, hklb]
  have hrem : removedKey a₁ b₁ = removedKey a₂ b₂ := by
    funext k
    unfold removedKey inKeySet
    rw [hkla, hklb]
  constructor
  · unfold addedIdx
    rw [hnb, hadd]
  · unfold removedIdx
    rw [hna, hrem]

/-- Witness for C10: the two runs differ only in a department column. -/
theorem classification_depends_only_on_names_witness :
    namesOf (DataFrame.mk [NAME_COL, "Dept"] [[Cell.str "Alice", Cell.str "X"]])
      = namesOf (DataFrame.mk [NAME_COL, "Dept"] [[Cell.str "Alice", Cell.str "Y"]])
    ∧ (addedIdx (DataFrame.mk [NAME_COL, "Dept"] [[Cell.str "Alice", Cell.str "X"]])
          (DataFrame.mk [NAME_COL, "Dept"] [[Cell.str "Bob", Cell.num 1]])
        = addedIdx (DataFrame.mk [NAME_COL, "Dept"] [[Cell.str "Alice", Cell.str "Y"]])
          (DataFrame.mk [NAME_COL, "Dept"] [[Cell.str "Bob", Cell.num 2]])
      ∧ removedIdx (DataFrame.mk [NAME_COL, "Dept"] [[Cell.str "Alice", Cell.str "X"]])
          (DataFrame.mk [NAME_COL, "Dept"] [[Cell.str "Bob", Cell.num 1]])
        = removedIdx (DataFrame.mk [NAME_COL, "Dept"] [[Cell.str "Alice", Cell.str "Y"]])
          (DataFrame.mk [NAME_COL, "Dept"] [[Cell.str "Bob", Cell.num 2]])) :=
  ⟨by decide, classification_depends_only_on_names _ _ _ _ (by decide) (by decide)⟩

end NricCompare
